import Mathlib

/-!
Verification of the gitpu.sh blog repository.

The repository is a static blog site.  The sources available are the blog
index page (`src/app/blog/page.tsx`), the home page (`src/unnamed/part_000`)
and one authored document (`src/app/blog/posts/argocd-bootstrap.mdx`).
The Document Store Reader, the Post List Provider and the `BlogPosts`
component live in files that are not part of the source snapshot; those
pieces are modelled from the specification, as marked on each definition.

Strings are modelled as `List Char`; a document file is a list of lines.
-/

namespace Gitpu

/-- A line of text. -/
abbrev Line : Type := List Char

/-- The fixed front-matter delimiter marker line, as used in
`src/app/blog/posts/argocd-bootstrap.mdx` (lines 1 and 5). -/
def delim : Line := ("---".toList : List Char)

/-- Split a line at its first colon: returns `some (key, rest)` where `key`
is everything before the first `:` and `rest` everything after it, or `none`
when the line has no colon.  Modelled from the spec: only the first colon is
a separator, a value may itself contain a colon. -/
def splitAtColon : List Char → Option (List Char × List Char)
  | [] => none
  | c :: cs =>
    if c = ':' then some ([], cs)
    else (splitAtColon cs).map (fun p => (c :: p.1, p.2))

/-- Parse a metadata line `key: value`.  Modelled from the spec: the key is
everything before the first colon, the value everything after it with leading
spaces dropped; a line without a colon is malformed. -/
def parseMetaLine (l : Line) : Option (List Char × List Char) :=
  (splitAtColon l).map (fun p => (p.1, p.2.dropWhile (fun c => c = ' ')))

/-- Find the first delimiter line: returns `some (before, after)` where
`before` are the lines preceding the first occurrence of `delim` and `after`
the lines following it, or `none` when no delimiter line occurs. -/
def findDelim : List Line → Option (List Line × List Line)
  | [] => none
  | l :: ls =>
    if l = delim then some ([], ls)
    else (findDelim ls).map (fun p => (l :: p.1, p.2))

/-- A parsed document: slug, metadata key/value pairs, body lines. -/
structure Document where
  slug : List Char
  metadata : List (List Char × List Char)
  body : List Line
deriving DecidableEq, Inhabited

/-- Parse every line of a metadata block, failing when any line fails. -/
def parseAll : List Line → Option (List (List Char × List Char))
  | [] => some []
  | l :: ls =>
    match parseMetaLine l, parseAll ls with
    | some p, some ps => some (p :: ps)
    | _, _ => none

/-- Modelled from the spec (the Document Store Reader's parsing step is not
in the source snapshot): split a file on the first two delimiter-line
occurrences; every line between them is parsed as a `key: value` pair;
everything after the second delimiter is the body, unchanged.  A file
missing a delimiter, or with a malformed metadata line, fails the read. -/
def parseDocument (lines : List Line) : Option (List (List Char × List Char) × List Line) :=
  match findDelim lines with
  | none => none
  | some (_, rest) =>
    match findDelim rest with
    | none => none
    | some (metaLines, body) =>
      match parseAll metaLines with
      | none => none
      | some pairs => some (pairs, body)

/-- The document file extension, `.mdx`, as in the source snapshot. -/
def docExt : List Char := (".mdx".toList : List Char)

/-- Does a file name carry the document extension? -/
def isDocFile (name : List Char) : Bool := decide (docExt <:+ name)

/-- File name without the extension. -/
def stripExt (name : List Char) : List Char := name.take (name.length - docExt.length)

/-- A directory entry: file name and file content (as lines). -/
structure Entry where
  name : List Char
  content : List Line
deriving DecidableEq, Inhabited

/-- Read a list of document files, one Document per file, failing as soon
as one file fails to parse. -/
def readFiles : List Entry → Option (List Document)
  | [] => some []
  | e :: es =>
    match parseDocument e.content, readFiles es with
    | some p, some ds => some (⟨stripExt e.name, p.1, p.2⟩ :: ds)
    | _, _ => none

/-- Modelled from the spec (the Document Store Reader is not in the source
snapshot): read a directory, keeping the document files, producing one
Document per file with `slug` the file name without the extension; any
parse failure fails the whole read. -/
def readDir (entries : List Entry) : Option (List Document) :=
  readFiles (entries.filter (fun e => isDocFile e.name))

/-- The `publishedAt` metadata value of a document (empty when absent);
ISO-8601 date strings compare correctly as plain character lists. -/
def pub (d : Document) : List Char :=
  match d.metadata.lookup ("publishedAt".toList : List Char) with
  | some v => v
  | none => []

/-- The descending-date relation the Post List Provider sorts by:
`d` comes no later than `e` when `e`'s publication date is ≤ `d`'s. -/
def dateGe (d e : Document) : Prop := pub e ≤ pub d

instance : DecidableRel dateGe := fun d e => inferInstanceAs (Decidable (pub e ≤ pub d))

instance : IsTotal Document dateGe := ⟨fun d e => le_total (pub e) (pub d)⟩

instance : IsTrans Document dateGe := ⟨fun _ _ _ h h2 => le_trans h2 h⟩

/-- Modelled from the spec (the Post List Provider is not in the source
snapshot): sort the documents by `publishedAt` descending with a stable
sort (insertion sort is stable). -/
def sortPosts (docs : List Document) : List Document :=
  docs.insertionSort dateGe

/-- Modelled from the spec: the Post List Provider reads the posts
directory fresh and returns the sorted list (failing when the read fails). -/
def getBlogPosts (entries : List Entry) : Option (List Document) :=
  (readDir entries).map sortPosts

/-- Modelled from the spec (the single-post lookup is not in the source
snapshot): find the document with the requested slug; `none` is the
distinct not-found outcome surfaced to the page layer. -/
def getPost (entries : List Entry) (slug : List Char) : Option (Option Document) :=
  (readDir entries).map (fun docs => docs.find? (fun d => d.slug = slug))

/-- Re-serialize a metadata key/value pair back to a `key: value` line. -/
def serializeMeta (p : List Char × List Char) : Line :=
  p.1 ++ ':' :: ' ' :: p.2

/-- Re-serialize a whole metadata block, one `key: value` line per pair. -/
def serializeBlock (pairs : List (List Char × List Char)) : List Line :=
  pairs.map serializeMeta

/-- A document with a given slug and publication date (test fixture for the
spec's three-document example). -/
def exDoc (s d : String) : Document :=
  ⟨s.toList, [(("publishedAt".toList : List Char), d.toList)], []⟩

/-! ### Read lifecycle (spec §3, §5) -/

/-- The file-system state visible to the site: the posts directory.
Modelled from the spec: the store is read-only, sourced from files bundled
with the deployment. -/
structure World where
  postsDir : List Entry
deriving DecidableEq

/-- Modelled from the spec: one read of the store discovers the Documents
fresh from the directory (no caching) and leaves the world unchanged
(no mutation, no deletion). -/
def readStore (w : World) : Option (List Document) × World :=
  (readDir w.postsDir, w)

/-- A sequence of `n` reads of the store, each threading the world produced
by the previous one, collecting every result. -/
def readTrace : Nat → World → List (Option (List Document)) × World
  | 0, w => ([], w)
  | n + 1, w =>
    let r := readStore w
    let rest := readTrace n r.2
    (r.1 :: rest.1, rest.2)

/-! ### Page renderers (src/app/blog/page.tsx, src/unnamed/part_000) -/

/-- Rendered page markup: an element with tag, attributes and children, or
a text node. -/
inductive Node where
  | element (tag : String) (attrs : List (String × String)) (children : List Node)
  | text (s : String)

instance : Inhabited Node := ⟨Node.text ""⟩

/-- Modelled from the spec: one rendered list entry for a document (the
`BlogPosts` component's per-post markup is not in the source snapshot); it
links to the page at the path derived from the slug. -/
def renderPost (d : Document) : Node :=
  Node.element "a" [("href", "/blog/" ++ String.mk d.slug)] [Node.text (String.mk d.slug)]

/-- Modelled from the spec: the `BlogPosts` component
(`app/components/posts`, not in the source snapshot) renders the Post List
Provider's output — the store's documents sorted by `publishedAt`
descending — one entry per document. -/
def BlogPosts (store : List Document) : Node :=
  Node.element "div" [] ((sortPosts store).map renderPost)

/-- The home page (`src/unnamed/part_000`): a section with the fixed
heading `gitpu.sh`, the fixed tagline, and a div wrapping `BlogPosts`. -/
def homePage (store : List Document) : Node :=
  Node.element "section" []
    [Node.element "h1" [("className", "mb-8 text-2xl font-semibold tracking-tighter")]
      [Node.text "gitpu.sh"],
     Node.element "p" [("className", "mb-4")]
      [Node.text "Azure | IaC | DevOps | Kubernetes | Linux"],
     Node.element "div" [("className", "my-8")]
      [BlogPosts store]]

/-- The blog index page (`src/app/blog/page.tsx`, `Page`): a section with
the fixed heading `blog` followed by `BlogPosts`. -/
def blogPage (store : List Document) : Node :=
  Node.element "section" []
    [Node.element "h1" [("className", "font-semibold text-2xl mb-8 tracking-tighter")]
      [Node.text "blog"],
     BlogPosts store]

/-- A page's exported metadata: title and description. -/
structure PageMetadata where
  title : String
  description : String
deriving DecidableEq

/-- The blog index page's exported `metadata` constant
(`src/app/blog/page.tsx` lines 3–6). -/
def blogPageMetadata : PageMetadata :=
  { title := "blog", description := "blog" }

/-- Children of a node (a text node has none). -/
def childrenOf : Node → List Node
  | Node.element _ _ cs => cs
  | Node.text _ => []

/-- The text of a node when it is an `h1` with a single text child. -/
def h1TextOf : Node → Option String
  | Node.element "h1" _ [Node.text s] => some s
  | _ => none

/-- The text of a node when it is a `p` with a single text child. -/
def pTextOf : Node → Option String
  | Node.element "p" _ [Node.text s] => some s
  | _ => none

/-- The first `h1` heading text among a page's direct children. -/
def pageHeading (n : Node) : Option String :=
  (childrenOf n).findSome? h1TextOf

/-- The first `p` tagline text among a page's direct children. -/
def pageTagline (n : Node) : Option String :=
  (childrenOf n).findSome? pTextOf

/-- The post-list component embedded in the home page: the sole child of
the section's third child (the `my-8` div). -/
def homePagePosts (store : List Document) : Node :=
  (childrenOf ((childrenOf (homePage store)).getD 2 (Node.text ""))).getD 0 (Node.text "")

/-- The post-list component embedded in the blog index page: the section's
second child. -/
def blogPagePosts (store : List Document) : Node :=
  (childrenOf (blogPage store)).getD 1 (Node.text "")

/-! ### Concrete fixtures -/

/-- A concrete well-formed document file, following
`src/app/blog/posts/argocd-bootstrap.mdx`. -/
def exFile : List Line :=
  [delim,
   ("title: 'ArgoCD Bootstrap'".toList : List Char),
   ("publishedAt: '2025-07-30'".toList : List Char),
   delim,
   ("body".toList : List Char)]

/-- The directory entry holding `exFile`. -/
def exEntry : Entry := ⟨("argocd-bootstrap.mdx".toList : List Char), exFile⟩

/-- A second, older well-formed document file. -/
def exFile2 : List Line :=
  [delim, ("publishedAt: '2024-01-01'".toList : List Char), delim]

/-- The directory entry holding `exFile2`. -/
def exEntry2 : Entry := ⟨("older-post.mdx".toList : List Char), exFile2⟩

/-- A malformed document file: it misses the closing delimiter. -/
def badFile : List Line := [delim, ("title: x".toList : List Char)]

/-- The directory entry holding `badFile`. -/
def badEntry : Entry := ⟨("broken.mdx".toList : List Char), badFile⟩

/-! ### Lemmas about the delimiter and metadata-line splitters -/

theorem findDelim_append (pre rest : List Line) (h : delim ∉ pre) :
    findDelim (pre ++ delim :: rest) = some (pre, rest) := by
  induction pre with
  | nil => simp [findDelim]
  | cons l ls ih =>
    have hl : ¬ l = delim := fun he => h (by simp [he])
    simp [findDelim, hl, ih (fun hm => h (List.mem_cons_of_mem _ hm))]

theorem findDelim_none (ls : List Line) (h : delim ∉ ls) : findDelim ls = none := by
  induction ls with
  | nil => rfl
  | cons l ls ih =>
    have hl : ¬ l = delim := fun he => h (by simp [he])
    simp [findDelim, hl, ih (fun hm => h (List.mem_cons_of_mem _ hm))]

theorem findDelim_some (ls b a : List Line) (h : findDelim ls = some (b, a)) :
    ls = b ++ delim :: a ∧ delim ∉ b := by
  induction ls generalizing b a with
  | nil => simp [findDelim] at h
  | cons l ls ih =>
    by_cases hl : l = delim
    · subst hl
      simp [findDelim] at h
      obtain ⟨hb, ha⟩ := h
      subst hb; subst ha; simp
    · rw [findDelim] at h
      rw [if_neg hl] at h
      cases hf : findDelim ls with
      | none => rw [hf] at h; simp at h
      | some p =>
        rw [hf] at h
        simp at h
        obtain ⟨hb, ha⟩ := h
        obtain ⟨h1, h2⟩ := ih p.1 p.2 (by rw [hf])
        subst hb; subst ha
        refine ⟨by rw [List.cons_append, ← h1], ?_⟩
        intro hm
        rcases List.mem_cons.mp hm with he | hm2
        · exact hl he.symm
        · exact h2 hm2

theorem splitAtColon_append (k v : List Char) (h : (':' : Char) ∉ k) :
    splitAtColon (k ++ ':' :: v) = some (k, v) := by
  induction k with
  | nil => simp [splitAtColon]
  | cons c cs ih =>
    have hc : ¬ c = ':' := fun he => h (by simp [he])
    simp [splitAtColon, hc, ih (fun hm => h (List.mem_cons_of_mem _ hm))]

theorem splitAtColon_some (l k v : List Char) (h : splitAtColon l = some (k, v)) :
    (':' : Char) ∉ k ∧ l = k ++ ':' :: v := by
  induction l generalizing k v with
  | nil => simp [splitAtColon] at h
  | cons c cs ih =>
    by_cases hc : c = ':'
    · subst hc
      simp [splitAtColon] at h
      obtain ⟨hk, hv⟩ := h
      subst hk; subst hv; simp
    · rw [splitAtColon] at h
      rw [if_neg hc] at h
      cases hs : splitAtColon cs with
      | none => rw [hs] at h; simp at h
      | some p =>
        rw [hs] at h
        simp at h
        obtain ⟨hk, hv⟩ := h
        obtain ⟨h1, h2⟩ := ih p.1 p.2 (by rw [hs])
        subst hk; subst hv
        constructor
        · intro hm
          rcases List.mem_cons.mp hm with he | hm2
          · exact hc he.symm
          · exact h1 hm2
        · rw [List.cons_append, ← h2]

theorem dropWhile_idem (p : Char → Bool) (l : List Char) :
    (l.dropWhile p).dropWhile p = l.dropWhile p := by
  induction l with
  | nil => rfl
  | cons c cs ih =>
    by_cases hp : p c
    · simp [List.dropWhile_cons, hp, ih]
    · simp [List.dropWhile_cons, hp]

theorem parseMetaLine_append (k v : List Char) (h : (':' : Char) ∉ k) :
    parseMetaLine (k ++ ':' :: v) = some (k, v.dropWhile (fun c => c = ' ')) := by
  simp [parseMetaLine, splitAtColon_append k v h]

theorem parseMetaLine_roundTrip (l : Line) (k v : List Char)
    (h : parseMetaLine l = some (k, v)) :
    parseMetaLine (serializeMeta (k, v)) = some (k, v) := by
  rw [parseMetaLine] at h
  cases hs : splitAtColon l with
  | none => rw [hs] at h; simp at h
  | some p =>
    obtain ⟨k2, rest⟩ := p
    rw [hs] at h
    simp at h
    obtain ⟨hk, hv⟩ := h
    obtain ⟨h1, _⟩ := splitAtColon_some l k2 rest hs
    subst hk
    subst hv
    rw [serializeMeta]
    rw [parseMetaLine, splitAtColon_append _ _ h1]
    simp [List.dropWhile_cons, dropWhile_idem]

/-! ### Lemmas about block parsing, the reader and the sorter -/

theorem parseAll_none_of_mem (meta : List Line) (l : Line) (hm : l ∈ meta)
    (hl : parseMetaLine l = none) : parseAll meta = none := by
  induction meta with
  | nil => simp at hm
  | cons x xs ih =>
    rcases List.mem_cons.mp hm with he | h2
    · subst he; simp [parseAll, hl]
    · cases hx : parseMetaLine x <;> simp [parseAll, hx, ih h2]

theorem parseAll_roundTrip (meta : List Line) (pairs : List (List Char × List Char))
    (h : parseAll meta = some pairs) :
    parseAll (serializeBlock pairs) = some pairs := by
  induction meta generalizing pairs with
  | nil =>
    rw [parseAll] at h
    cases h
    rfl
  | cons l ls ih =>
    cases hl : parseMetaLine l with
    | none => simp [parseAll, hl] at h
    | some p =>
      cases ha : parseAll ls with
      | none => simp [parseAll, hl, ha] at h
      | some ps =>
        simp [parseAll, hl, ha] at h
        subst h
        obtain ⟨k, v⟩ := p
        have h2 := ih ps ha
        rw [serializeBlock] at h2
        simp [serializeBlock, parseAll, parseMetaLine_roundTrip l k v hl, h2]

theorem parseDocument_append (pre meta body : List Line)
    (pairs : List (List Char × List Char))
    (hpre : delim ∉ pre) (hmeta : delim ∉ meta) (hparse : parseAll meta = some pairs) :
    parseDocument (pre ++ delim :: (meta ++ delim :: body)) = some (pairs, body) := by
  rw [parseDocument]
  simp only [findDelim_append pre _ hpre, findDelim_append meta body hmeta, hparse]

theorem parseDocument_malformed (pre meta body : List Line)
    (hpre : delim ∉ pre) (hmeta : delim ∉ meta) (hparse : parseAll meta = none) :
    parseDocument (pre ++ delim :: (meta ++ delim :: body)) = none := by
  rw [parseDocument]
  simp only [findDelim_append pre _ hpre, findDelim_append meta body hmeta, hparse]

theorem parseDocument_missing_delim (lines : List Line)
    (h : lines.count delim < 2) : parseDocument lines = none := by
  rw [parseDocument]
  cases h1 : findDelim lines with
  | none => rfl
  | some p =>
    obtain ⟨b, rest⟩ := p
    obtain ⟨hsplit, hnb⟩ := findDelim_some lines b rest h1
    have hc : lines.count delim = b.count delim + rest.count delim + 1 := by
      rw [hsplit]
      simp [List.count_append, List.count_cons]
      omega
    have hr0 : rest.count delim = 0 := by omega
    have hr : delim ∉ rest := List.count_eq_zero.mp hr0
    simp only [findDelim_none rest hr]

theorem readFiles_slugs (es : List Entry) (docs : List Document)
    (h : readFiles es = some docs) :
    docs.map Document.slug = es.map (fun e => stripExt e.name) := by
  induction es generalizing docs with
  | nil =>
    rw [readFiles] at h
    cases h
    rfl
  | cons e es ih =>
    cases hp : parseDocument e.content with
    | none => simp [readFiles, hp] at h
    | some p =>
      cases hr : readFiles es with
      | none => simp [readFiles, hp, hr] at h
      | some ds =>
        simp [readFiles, hp, hr] at h
        subst h
        simp [ih ds hr]

theorem readFiles_fails (es : List Entry) (e : Entry) (he : e ∈ es)
    (hp : parseDocument e.content = none) : readFiles es = none := by
  induction es with
  | nil => simp at he
  | cons f fs ih =>
    rcases List.mem_cons.mp he with he2 | hm
    · subst he2; simp [readFiles, hp]
    · cases hpf : parseDocument f.content <;> simp [readFiles, hpf, ih hm]

theorem stripExt_append (t : List Char) : stripExt (t ++ docExt) = t := by
  rw [stripExt, List.length_append, Nat.add_sub_cancel, List.take_left]

theorem isDocFile_eq (n : List Char) (h : isDocFile n = true) :
    stripExt n ++ docExt = n := by
  rw [isDocFile, decide_eq_true_eq] at h
  obtain ⟨t, ht⟩ := h
  rw [← ht, stripExt_append]

theorem sortPosts_perm (docs : List Document) : (sortPosts docs).Perm docs :=
  List.perm_insertionSort dateGe docs

theorem sortPosts_sorted (docs : List Document) : (sortPosts docs).Sorted dateGe :=
  List.sorted_insertionSort dateGe docs

theorem sortPosts_stable (docs : List Document) (d : List Char) :
    (sortPosts docs).filter (fun x => decide (pub x = d)) =
      docs.filter (fun x => decide (pub x = d)) := by
  have hsub : (docs.filter (fun x => decide (pub x = d))).Sublist (sortPosts docs) := by
    apply List.sublist_insertionSort
    · apply List.pairwise_of_forall_mem_list
      intro a ha b hb
      have hpa : pub a = d := by simpa using (List.mem_filter.mp ha).2
      have hpb : pub b = d := by simpa using (List.mem_filter.mp hb).2
      rw [dateGe, hpa, hpb]
    · exact List.filter_sublist docs
  have h2 : (docs.filter (fun x => decide (pub x = d))).Sublist
      ((sortPosts docs).filter (fun x => decide (pub x = d))) := by
    have h3 := List.Sublist.filter (fun x => decide (pub x = d)) hsub
    rw [List.filter_filter] at h3
    simpa using h3
  have hlen : ((sortPosts docs).filter (fun x => decide (pub x = d))).length =
      (docs.filter (fun x => decide (pub x = d))).length :=
    ((sortPosts_perm docs).filter _).length_eq
  exact (List.Sublist.eq_of_length h2 hlen.symm).symm

/-! ### Claim theorems -/

/-- Claim C1: for every list of Documents discovered from the posts
directory, in any discovery order, the Post List Provider returns exactly
those Documents ordered by `publishedAt` descending (a permutation of the
discovered list, sorted under `dateGe`), with documents of equal
`publishedAt` kept in discovery order (the filter at every fixed date is
unchanged); the spec's three-document example comes back newest first. -/
theorem C1_provider_sorted (entries : List Entry) (docs : List Document)
    (h : readDir entries = some docs) :
    (getBlogPosts entries = some (sortPosts docs)
      ∧ (sortPosts docs).Perm docs
      ∧ (sortPosts docs).Sorted dateGe
      ∧ ∀ d : List Char, (sortPosts docs).filter (fun x => decide (pub x = d)) =
          docs.filter (fun x => decide (pub x = d)))
    ∧ sortPosts [exDoc "a" "2024-01-01", exDoc "b" "2025-07-30", exDoc "c" "2023-05-05"] =
        [exDoc "b" "2025-07-30", exDoc "a" "2024-01-01", exDoc "c" "2023-05-05"] := by
  refine ⟨⟨?_, sortPosts_perm docs, sortPosts_sorted docs, fun d => sortPosts_stable docs d⟩, ?_⟩
  · rw [getBlogPosts, h]; rfl
  · decide

/-- Witness for C1: the provider applied to the spec's three concretely
dated documents returns them ordered 2025-07-30, 2024-01-01, 2023-05-05. -/
theorem C1_provider_sorted_witness :
    sortPosts [exDoc "a" "2024-01-01", exDoc "b" "2025-07-30", exDoc "c" "2023-05-05"] =
      [exDoc "b" "2025-07-30", exDoc "a" "2024-01-01", exDoc "c" "2023-05-05"] :=
  (C1_provider_sorted [] [] rfl).2

/-- Claim C2: a file whose text holds at least two delimiter occurrences is
split on the first two; each line between them parses as a `key: value`
pair where only the first colon separates (the value may contain colons),
and everything after the second delimiter is the body, unchanged. -/
theorem C2_parse_split (pre meta body : List Line) (pairs : List (List Char × List Char))
    (hpre : delim ∉ pre) (hmeta : delim ∉ meta) (hparse : parseAll meta = some pairs) :
    parseDocument (pre ++ delim :: (meta ++ delim :: body)) = some (pairs, body)
    ∧ ∀ k v : List Char, (':' : Char) ∉ k →
        parseMetaLine (k ++ ':' :: v) = some (k, v.dropWhile (fun c => c = ' ')) :=
  ⟨parseDocument_append pre meta body pairs hpre hmeta hparse,
    fun k v hk => parseMetaLine_append k v hk⟩

/-- Witness for C2: a concrete file whose metadata value itself contains a
colon parses with the split at the first colon and the body unchanged. -/
theorem C2_parse_split_witness :
    parseDocument [delim, ("title: a:b".toList : List Char), delim, ("x".toList : List Char)] =
      some ([(("title".toList : List Char), ("a:b".toList : List Char))],
        [("x".toList : List Char)]) :=
  (C2_parse_split [] [("title: a:b".toList : List Char)] [("x".toList : List Char)]
    [(("title".toList : List Char), ("a:b".toList : List Char))]
    (by decide) (by decide) (by decide)).1

/-- Claim C3: a document missing a metadata delimiter, or with a malformed
metadata line, fails the read for that document, and is never silently
skipped — the whole directory read fails rather than substituting any
default metadata. -/
theorem C3_fail_fast (lines pre meta body : List Line) (l : Line)
    (entries : List Entry) (e : Entry)
    (hcount : lines.count delim < 2)
    (hpre : delim ∉ pre) (hmeta : delim ∉ meta) (hl : l ∈ meta)
    (hbad : parseMetaLine l = none)
    (he : e ∈ entries) (hdoc : isDocFile e.name = true)
    (hfail : parseDocument e.content = none) :
    parseDocument lines = none
    ∧ parseDocument (pre ++ delim :: (meta ++ delim :: body)) = none
    ∧ readDir entries = none := by
  refine ⟨parseDocument_missing_delim lines hcount,
    parseDocument_malformed pre meta body hpre hmeta (parseAll_none_of_mem meta l hl hbad), ?_⟩
  rw [readDir]
  exact readFiles_fails _ e (List.mem_filter.mpr ⟨he, hdoc⟩) hfail

/-- Witness for C3: the concrete file missing its closing delimiter makes
the read of its directory fail. -/
theorem C3_fail_fast_witness : readDir [badEntry] = none :=
  (C3_fail_fast badFile [] [("nocolon".toList : List Char)] []
    ("nocolon".toList : List Char) [badEntry] badEntry
    (by decide) (by decide) (by decide) (by decide) (by decide)
    (List.mem_cons_self _ _) (by decide) (by decide)).2.2

/-- Claim C4: every Document's slug equals its file name without the
extension, and for a directory whose file names are distinct (as on a real
file system) the slugs are pairwise distinct. -/
theorem C4_slug_unique (entries : List Entry) (docs : List Document)
    (hnodup : (entries.map Entry.name).Nodup)
    (hread : readDir entries = some docs) :
    docs.map Document.slug =
      (entries.filter (fun e => isDocFile e.name)).map (fun e => stripExt e.name)
    ∧ (docs.map Document.slug).Nodup := by
  have hslugs := readFiles_slugs _ docs hread
  refine ⟨hslugs, ?_⟩
  rw [hslugs]
  have hsubl : ((entries.filter (fun e => isDocFile e.name)).map Entry.name).Sublist
      (entries.map Entry.name) :=
    List.Sublist.map Entry.name (List.filter_sublist entries)
  have hn2 : ((entries.filter (fun e => isDocFile e.name)).map Entry.name).Nodup :=
    List.Nodup.sublist hsubl hnodup
  have hinj : ∀ n ∈ (entries.filter (fun e => isDocFile e.name)).map Entry.name,
      ∀ m ∈ (entries.filter (fun e => isDocFile e.name)).map Entry.name,
      stripExt n = stripExt m → n = m := by
    intro n hn m hm he
    obtain ⟨en, hen, hen2⟩ := List.mem_map.mp hn
    obtain ⟨em, hem, hem2⟩ := List.mem_map.mp hm
    have hdn : isDocFile n = true := by
      rw [← hen2]; exact (List.mem_filter.mp hen).2
    have hdm : isDocFile m = true := by
      rw [← hem2]; exact (List.mem_filter.mp hem).2
    calc n = stripExt n ++ docExt := (isDocFile_eq n hdn).symm
    _ = stripExt m ++ docExt := by rw [he]
    _ = m := isDocFile_eq m hdm
  have hres := List.Nodup.map_on hinj hn2
  simpa [List.map_map, Function.comp] using hres

/-- Witness for C4: the two-file fixture directory yields pairwise distinct
slugs. -/
theorem C4_slug_unique_witness :
    (((readDir [exEntry, exEntry2]).getD []).map Document.slug).Nodup :=
  (C4_slug_unique [exEntry, exEntry2] ((readDir [exEntry, exEntry2]).getD [])
    (by decide) (by decide)).2

/-- Claim C5: a requested slug matching no document in the store yields the
distinct not-found outcome — the read layer succeeds (`some`) and the
lookup reports `none` — never a failure of the read layer. -/
theorem C5_not_found (entries : List Entry) (docs : List Document) (slug : List Char)
    (hread : readDir entries = some docs)
    (hmiss : ∀ d ∈ docs, d.slug ≠ slug) :
    getPost entries slug = some none := by
  rw [getPost, hread]
  have hfind : docs.find? (fun d => decide (d.slug = slug)) = none :=
    List.find?_eq_none.mpr (fun x hx => by simpa using hmiss x hx)
  simp [hfind]

/-- Witness for C5: looking up a slug absent from the fixture store yields
the not-found outcome. -/
theorem C5_not_found_witness :
    getPost [exEntry] ("missing".toList : List Char) = some none :=
  C5_not_found [exEntry] ((readDir [exEntry]).getD []) ("missing".toList : List Char)
    (by decide) (by decide)

/-- Claim C6: for every well-formed metadata block, re-serializing the
parsed key/value pairs back to `key: value` lines and parsing again yields
the same pairs (parse after serialize after parse equals parse). -/
theorem C6_roundTrip (meta : List Line) (pairs : List (List Char × List Char))
    (h : parseAll meta = some pairs) :
    parseAll (serializeBlock pairs) = some pairs :=
  parseAll_roundTrip meta pairs h

/-- Witness for C6: the fixture front-matter block round-trips. -/
theorem C6_roundTrip_witness :
    parseAll (serializeBlock
      [(("title".toList : List Char), ("'ArgoCD Bootstrap'".toList : List Char)),
       (("publishedAt".toList : List Char), ("'2025-07-30'".toList : List Char))]) =
    some [(("title".toList : List Char), ("'ArgoCD Bootstrap'".toList : List Char)),
       (("publishedAt".toList : List Char), ("'2025-07-30'".toList : List Char))] :=
  C6_roundTrip
    [("title: 'ArgoCD Bootstrap'".toList : List Char),
     ("publishedAt: '2025-07-30'".toList : List Char)]
    [(("title".toList : List Char), ("'ArgoCD Bootstrap'".toList : List Char)),
     (("publishedAt".toList : List Char), ("'2025-07-30'".toList : List Char))]
    (by decide)

/-- Claim C7: for a fixed directory state, reading the store is
deterministic and side-effect free: every read in a sequence returns the
same Document list and the file-system state is unchanged afterwards. -/
theorem C7_read_pure (w : World) (n : Nat) :
    (readTrace n w).1 = List.replicate n (readDir w.postsDir)
    ∧ (readTrace n w).2 = w := by
  induction n with
  | zero => exact ⟨rfl, rfl⟩
  | succ n ih => simp [readTrace, readStore, ih.1, ih.2, List.replicate_succ]

/-- Claim C8: the blog index page's exported metadata has the constant
title `blog` and description `blog`, and the page's heading is the
constant `blog` for every store state. -/
theorem C8_blog_metadata :
    blogPageMetadata.title = "blog" ∧ blogPageMetadata.description = "blog"
    ∧ ∀ store : List Document, pageHeading (blogPage store) = some "blog" :=
  ⟨rfl, rfl, fun _ => rfl⟩

/-- Claim C9: for every store state the home page renders the fixed heading
`gitpu.sh` and the fixed tagline before the post list, and the only part of
its output depending on the store is the embedded `BlogPosts` component. -/
theorem C9_home_fixed :
    (∀ store : List Document, pageHeading (homePage store) = some "gitpu.sh")
    ∧ (∀ store : List Document, pageTagline (homePage store) =
        some "Azure | IaC | DevOps | Kubernetes | Linux")
    ∧ (∀ store : List Document, homePagePosts store = BlogPosts store)
    ∧ ∀ s t : List Document, BlogPosts s = BlogPosts t → homePage s = homePage t := by
  refine ⟨fun _ => rfl, fun _ => rfl, fun _ => rfl, fun s t h => ?_⟩
  rw [homePage, homePage, h]

/-- Witness for C9: the home page over the empty store shows the fixed
heading. -/
theorem C9_home_fixed_witness :
    pageHeading (homePage []) = some "gitpu.sh" :=
  C9_home_fixed.1 []

/-- Claim C10: the home page and the blog index page embed the same
`BlogPosts` component applied to the same store, so for any fixed store the
post list displayed on both pages is identical. -/
theorem C10_same_posts (store : List Document) :
    homePagePosts store = blogPagePosts store ∧ blogPagePosts store = BlogPosts store :=
  ⟨rfl, rfl⟩

end Gitpu
